import Mathlib

/-!
WinFileTests: the four block-wise file transformers.

A shallow embedding of `FileTransformers.h` / `FileTransformers.cpp`.

* A file is the list of its bytes; the two files named by a transformer are
  kept in a `Disk`, `none` standing for a file that does not exist.
* Everything the operating system or the C/C++ runtime decides (whether the
  destination can be created, whether a read fails, how many bytes a write
  accepts, which mapping calls succeed, where an in-page error is raised) is
  an oracle of `Env`.
* `size_t` and `SIZE_T` are 64 bits wide, `DWORD` is 32 bits wide,
  `LARGE_INTEGER::QuadPart` is a signed 64-bit integer.  The casts written in
  the source are applied where the source applies them.  The two block buffers
  of the read/write backends are taken as allocated.
* Addresses are natural numbers and pointer arithmetic does not wrap; the memory of
  a mapped view is indexed from its base address.  Every invocation of the transform
  is recorded with its two pointers and its length, also one that is handed a block
  reaching past the end of its view.  The mapped backend is therefore described
  faithfully while every block stays inside the views (file size rounded up to whole
  blocks below `2 ^ 63`); the theorems that assert what it returns are stated inside
  that range.
* The streams behave as the C++ library specifies: a stream whose file cannot be
  opened has `failbit` set and `badbit` clear; `read` on a stream that is not good
  reads nothing and sets `failbit`; a short `read` sets `eofbit` and `failbit`;
  `write` on a stream that is not good writes nothing and sets `badbit`; `tellp`
  on a failed stream is `-1`.
* Loops run on fuel: `none` means the fuel ran out, never that the code failed.
-/

namespace WinFileTests

/-! ## Data model -/

/-- One `uint8_t`. -/
abbrev Byte := Nat

/-- Memory seen through a `uint8_t*`: the byte found `i` places after the pointer. -/
abbrev Buf := Nat → Byte

/-- The type `TProcessFunc = bool(*)(uint8_t*, uint8_t*, size_t)`.  The arguments are the
number of earlier invocations (it stands for whatever static state a plain function pointer
keeps between calls), the memory behind `inBuf`, the memory behind `outBuf` and
`sizeInBytes`; the result is the returned `bool` and the memory behind `outBuf` afterwards. -/
abbrev TProcessFunc := Nat → Buf → Buf → Nat → Bool × Buf

/-- The transform that copies the `sizeInBytes` bytes of the input block to the output block. -/
def identityTransform : TProcessFunc :=
  fun _ inBuf outBuf sizeInBytes => (true, fun i => if i < sizeInBytes then inBuf i else outBuf i)

/-- The fields of `class FileTransformer` (and `m_useSequential`, which `Process` reads). -/
structure FileTransformer where
  m_strFirstFile : String
  m_strSecondFile : String
  m_blockSizeInBytes : Nat
  m_useSequential : Bool

/-- The contents of the files named `m_strFirstFile` and `m_strSecondFile` (two different
files); `none` is a file that does not exist. -/
structure Disk where
  first : Option (List Byte)
  second : Option (List Byte)

/-- What the environment decides during one call of `Process`. -/
structure Env where
  /-- The destination can be opened, created or truncated for writing. -/
  secondWritable : Bool
  /-- The read issued after `k` completed blocks fails with an error. -/
  readFails : Nat → Bool
  /-- Bytes the write of block `k` accepts when asked for `n` (capped at `n`). -/
  written : Nat → Nat → Nat
  /-- The `BOOL` that `WriteFile` returns for block `k`. -/
  writeOK : Nat → Bool
  /-- `CreateFileMapping` on the input file succeeds (it never does for an empty file). -/
  inputMapOK : Bool
  /-- The address `MapViewOfFile` returns for the input file, `0` for `nullptr`. -/
  ptrInFile : Nat
  /-- `CreateFileMapping` on the output file succeeds. -/
  outputMapOK : Bool
  /-- The address `MapViewOfFile` returns for the output file, `0` for `nullptr`. -/
  ptrOutFile : Nat
  /-- Invocation `k` of the transform raises `EXCEPTION_IN_PAGE_ERROR`. -/
  pageError : Nat → Bool

/-- No operation of the environment fails. -/
def Env.ideal (env : Env) : Prop :=
  env.secondWritable = true ∧ (∀ k, env.readFails k = false) ∧ (∀ k n, env.written k n = n) ∧
  (∀ k, env.writeOK k = true) ∧ env.inputMapOK = true ∧ env.ptrInFile ≠ 0 ∧
  env.outputMapOK = true ∧ env.ptrOutFile ≠ 0 ∧ (∀ k, env.pageError k = false)

/-- What `Process` reports: `Logger` calls and the messages printed directly. -/
inductive LogEvent where
  /-- The call `Logger::PrintCannotOpenFile(name)`. -/
  | cannotOpenFile (name : String)
  /-- The call `Logger::PrintErrorTransformingFile(numRead, numWritten)`. -/
  | errorTransformingFile (numRead numWritten : Nat)
  /-- The call `Logger::PrintTransformSummary(blockCount, blockSize, first, second)`. -/
  | transformSummary (blockCount blockSize : Nat) (first second : String)
  /-- The line "Couldn't read block of data (block num k)!" of the stdio backend. -/
  | couldntReadBlockNum (blockCount : Nat)
  /-- The line "Couldn't read block of data!" of the stream backend. -/
  | couldntReadBlock
  /-- The line "Cannot map input file!". -/
  | cannotMapInput
  /-- The line "Cannot map output file!". -/
  | cannotMapOutput
  /-- The line "Fatal Error accessing mapped file.". -/
  | fatalMappedAccess
  deriving DecidableEq, Repr

/-- One invocation `processFunc(inPtr, outPtr, size)`.  In the read/write backends the two
pointers are always `inBuf.get()` and `outBuf.get()`, written `0`. -/
structure Call where
  inPtr : Nat
  outPtr : Nat
  size : Nat
  deriving DecidableEq, Repr

/-- What a returned call of `Process` leaves behind. -/
structure Outcome where
  /-- The returned `bool`. -/
  result : Bool
  /-- The destination file afterwards. -/
  second : Option (List Byte)
  log : List LogEvent
  /-- The invocations of the transform, in order. -/
  calls : List Call
  /-- Addresses of the views mapped by `MapViewOfFile` and not unmapped at the return. -/
  views : List Nat
  deriving DecidableEq, Repr

/-- The first `n` bytes behind a pointer. -/
def bufBytes (b : Buf) (n : Nat) : List Byte := (List.range n).map b

/-- Memory after `chunk` has been stored at the pointer. -/
def bufStore (b : Buf) (chunk : List Byte) : Buf := fun i => chunk.getD i (b i)

/-- The value-initialised block buffer `std::make_unique<uint8_t[]>(n)`. -/
def zeroBuf : Buf := fun _ => 0

/-- The `Logger::PrintTransformSummary` event of a transformer. -/
def summary (t : FileTransformer) (blockCount : Nat) : LogEvent :=
  .transformSummary blockCount t.m_blockSizeInBytes t.m_strFirstFile t.m_strSecondFile

/-- Modelled from the spec: `make_fopen` of `Utils.h` (not among the sources): it yields the
open stream, or a null pointer when the file cannot be opened ("unable to open either file:
immediate failure"). -/
def make_fopen (opened : Option (List Byte)) : Option (List Byte) := opened

/-- Modelled from the spec: `make_HANDLE_unique_ptr` of `Utils.h` (not among the sources): it
wraps the handle it is given; for an invalid handle it yields a null pointer and sends the
logging sink a "cannot open file" event with the name it was given. -/
def make_HANDLE_unique_ptr (handle : Option (List Byte)) (name : String) :
    Option (List Byte) × List LogEvent :=
  match handle with
  | some h => (some h, [])
  | none => (none, [.cannotOpenFile name])

/-- Opening the first file for reading (`fopen` in mode `rb`, `CreateFile` with
`OPEN_EXISTING`): the bytes of the file, or nothing when it does not exist. -/
def openExisting (disk : Disk) : Option (List Byte) := disk.first

/-- Opening the second file for writing (`fopen` in mode `wb`, `CreateFile` with
`CREATE_ALWAYS`): the file is created or truncated to no bytes when the environment allows. -/
def createAlways (env : Env) : Option (List Byte) :=
  if env.secondWritable then some [] else none

/-- A value of `size_t` read as `long long`. -/
def toInt64 (x : Nat) : Int :=
  if x % 2 ^ 64 < 2 ^ 63 then ((x % 2 ^ 64 : Nat) : Int) else ((x % 2 ^ 64 : Nat) : Int) - 2 ^ 64

/-- A signed value converted to `size_t`. -/
def toSizeT (x : Int) : Nat := (x % 2 ^ 64).toNat

/-- A value of `size_t` converted by `static_cast<DWORD>`. -/
def toDWORD (x : Nat) : Nat := x % 2 ^ 32

/-! ## The read/transform/write loops -/

/-- State of the read/transform/write loops.  A flag that a backend does not have keeps its
initial value there. -/
structure LoopState where
  /-- The bytes of the input file not read yet. -/
  rest : List Byte
  /-- The end-of-file indicator of the input (`feof`, `eofbit`). -/
  eof : Bool
  /-- The bit `failbit` of the input stream. -/
  failbit : Bool
  /-- The bit `badbit` of the input stream. -/
  badbit : Bool
  /-- The output stream has `failbit` set (it could not be opened). -/
  outFail : Bool
  /-- The bit `badbit` of the output stream. -/
  outBad : Bool
  /-- The variable `writeOK` of the handle backend. -/
  writeOK : Bool
  inBuf : Buf
  outBuf : Buf
  blockCount : Nat
  /-- The bytes written to the destination so far. -/
  out : List Byte
  log : List LogEvent
  calls : List Call

/-- The state in which a loop starts on an input of `data`. -/
def LoopState.init (data : List Byte) : LoopState :=
  { rest := data, eof := false, failbit := false, badbit := false, outFail := false,
    outBad := false, writeOK := true, inBuf := zeroBuf, outBuf := zeroBuf, blockCount := 0,
    out := [], log := [], calls := [] }

/-- The outcome of a call that returns before the loop. -/
def earlyReturn (disk : Disk) (log : List LogEvent) : Outcome :=
  { result := false, second := disk.second, log := log, calls := [], views := [] }

/-! ### StdioFileTransformer -/

/-- The `while (!feof(...))` loop of `StdioFileTransformer::Process`.  The flag of the result
is `false` when the loop left through `return false`, `true` when control reaches the summary. -/
def StdioFileTransformer.loop (B : Nat) (env : Env) (processFunc : TProcessFunc) :
    Nat → LoopState → Option (Bool × LoopState)
  | 0, _ => none
  | fuel + 1, s =>
    if s.eof then some (true, s)
    else if env.readFails s.blockCount then
      -- numRead == 0 and ferror
      some (false, { s with log := s.log ++ [.couldntReadBlockNum s.blockCount] })
    else
      let chunk := s.rest.take B
      let numRead := chunk.length
      let s1 := { s with rest := s.rest.drop B, eof := decide (numRead < B),
                         inBuf := bufStore s.inBuf chunk }
      if numRead = 0 then some (true, s1)
      else
        let r := processFunc s1.calls.length s1.inBuf s1.outBuf numRead
        let numWritten := min (env.written s1.blockCount numRead) numRead
        let log1 := if numRead ≠ numWritten then
            s1.log ++ [.errorTransformingFile numRead numWritten] else s1.log
        StdioFileTransformer.loop B env processFunc fuel
          { s1 with outBuf := r.2, out := s1.out ++ bufBytes r.2 numWritten, log := log1,
                    calls := s1.calls ++ [⟨0, 0, numRead⟩], blockCount := s1.blockCount + 1 }

/-- The method `StdioFileTransformer::Process`. -/
def StdioFileTransformer.Process (t : FileTransformer) (env : Env) (disk : Disk)
    (processFunc : TProcessFunc) (fuel : Nat) : Option Outcome :=
  match make_fopen (openExisting disk) with
  | none => some (earlyReturn disk [])
  | some data =>
    match make_fopen (createAlways env) with
    | none => some (earlyReturn disk [])
    | some _ =>
      match StdioFileTransformer.loop t.m_blockSizeInBytes env processFunc fuel (.init data) with
      | none => none
      | some (false, s) =>
        some { result := false, second := some s.out, log := s.log, calls := s.calls, views := [] }
      | some (true, s) =>
        some { result := true, second := some s.out, log := s.log ++ [summary t s.blockCount],
               calls := s.calls, views := [] }

/-! ### IoStreamFileTransformer -/

/-- The value of `outputStream.tellp()`: `-1` once the stream has failed. -/
def tellp (s : LoopState) : Int :=
  if s.outFail || s.outBad then -1 else (s.out.length : Int)

/-- The `while (!inputStream.eof())` loop of `IoStreamFileTransformer::Process`; the flag of
the result is as in the stdio loop. -/
def IoStreamFileTransformer.loop (B : Nat) (env : Env) (processFunc : TProcessFunc) :
    Nat → LoopState → Option (Bool × LoopState)
  | 0, _ => none
  | fuel + 1, s =>
    if s.eof then some (true, s)
    else
      -- inputStream.read: nothing is read from a stream that is not good
      let notGood := s.eof || s.failbit || s.badbit
      let failing := !notGood && env.readFails s.blockCount
      let chunk := if notGood || failing then [] else s.rest.take B
      let short := !notGood && !failing && decide (chunk.length < B)
      let s1 := { s with rest := s.rest.drop chunk.length, eof := s.eof || short,
                         failbit := s.failbit || notGood || short,
                         badbit := s.badbit || failing, inBuf := bufStore s.inBuf chunk }
      if s1.badbit then some (false, { s1 with log := s1.log ++ [.couldntReadBlock] })
      else
        let numRead := chunk.length
        if numRead = 0 then some (true, s1)
        else
          let r := processFunc s1.calls.length s1.inBuf s1.outBuf numRead
          let posBefore := tellp s1
          -- outputStream.write: a stream that is not good takes nothing and turns bad
          let numWritten := if s1.outFail || s1.outBad then 0
            else min (env.written s1.blockCount numRead) numRead
          let s2 := { s1 with outBuf := r.2, out := s1.out ++ bufBytes r.2 numWritten,
                              outBad := s1.outFail || s1.outBad || decide (numWritten ≠ numRead) }
          let log2 := if s2.outBad then
              s2.log ++ [.errorTransformingFile numRead (toSizeT (tellp s2 - posBefore))]
            else s2.log
          IoStreamFileTransformer.loop B env processFunc fuel
            { s2 with log := log2, calls := s2.calls ++ [⟨0, 0, numRead⟩],
                      blockCount := s2.blockCount + 1 }

/-- The method `IoStreamFileTransformer::Process`.  A stream whose file cannot be opened is
constructed with `failbit` set and `badbit` clear. -/
def IoStreamFileTransformer.Process (t : FileTransformer) (env : Env) (disk : Disk)
    (processFunc : TProcessFunc) (fuel : Nat) : Option Outcome :=
  let opened := openExisting disk
  let inputStream : LoopState := { LoopState.init (opened.getD []) with failbit := opened.isNone }
  if inputStream.badbit then some (earlyReturn disk [.cannotOpenFile t.m_strFirstFile])
  else
    let created := createAlways env
    let outputStream : LoopState := { inputStream with outFail := created.isNone }
    let second := if created.isNone then disk.second else some []
    if outputStream.outBad then
      some { result := false, second := second, log := [.cannotOpenFile t.m_strSecondFile],
             calls := [], views := [] }
    else
      match IoStreamFileTransformer.loop t.m_blockSizeInBytes env processFunc fuel
          outputStream with
      | none => none
      | some (flag, s) =>
        let secondAfter := if created.isNone then disk.second else some s.out
        if flag then
          some { result := true, second := secondAfter, log := s.log ++ [summary t s.blockCount],
                 calls := s.calls, views := [] }
        else
          some { result := false, second := secondAfter, log := s.log, calls := s.calls,
                 views := [] }

/-! ### WinFileTransformer -/

/-- The `while (ReadFile(...) && numBytesRead > 0 && writeOK)` loop of
`WinFileTransformer::Process`. -/
def WinFileTransformer.loop (B : Nat) (env : Env) (processFunc : TProcessFunc) :
    Nat → LoopState → Option LoopState
  | 0, _ => none
  | fuel + 1, s =>
    -- ReadFile asked for static_cast<DWORD>(m_blockSizeInBytes) bytes
    if env.readFails s.blockCount then some s
    else
      let chunk := s.rest.take (toDWORD B)
      let numBytesRead := chunk.length
      let s1 := { s with rest := s.rest.drop (toDWORD B), inBuf := bufStore s.inBuf chunk }
      if 0 < numBytesRead ∧ s1.writeOK = true then
        let r := processFunc s1.calls.length s1.inBuf s1.outBuf numBytesRead
        let numBytesWritten := min (env.written s1.blockCount numBytesRead) numBytesRead
        let log1 := if numBytesRead ≠ numBytesWritten then
            s1.log ++ [.errorTransformingFile numBytesRead numBytesWritten] else s1.log
        WinFileTransformer.loop B env processFunc fuel
          { s1 with writeOK := env.writeOK s1.blockCount, outBuf := r.2,
                    out := s1.out ++ bufBytes r.2 numBytesWritten, log := log1,
                    calls := s1.calls ++ [⟨0, 0, numBytesRead⟩],
                    blockCount := s1.blockCount + 1 }
      else some s1

/-- The method `WinFileTransformer::Process`. -/
def WinFileTransformer.Process (t : FileTransformer) (env : Env) (disk : Disk)
    (processFunc : TProcessFunc) (fuel : Nat) : Option Outcome :=
  match make_HANDLE_unique_ptr (openExisting disk) t.m_strFirstFile with
  | (none, log) => some (earlyReturn disk log)
  | (some data, _) =>
    match make_HANDLE_unique_ptr (createAlways env) t.m_strSecondFile with
    | (none, log) => some (earlyReturn disk log)
    | (some _, _) =>
      match WinFileTransformer.loop t.m_blockSizeInBytes env processFunc fuel (.init data) with
      | none => none
      | some s =>
        some { result := true, second := some s.out, log := s.log ++ [summary t s.blockCount],
               calls := s.calls, views := [] }

/-! ## MappedWinFileTransformer -/

/-- State of the loop of `DoProcess`.  `pIn` and `pOut` are addresses; the memory of the output
view is indexed from its first byte. -/
structure MapState where
  pIn : Nat
  pOut : Nat
  bytesProcessed : Nat
  outMem : Buf
  log : List LogEvent
  calls : List Call

/-- The free function `DoProcess`: `inMem` is the memory of the input view (indexed from its
first byte), `fileSize` is `fileSize.QuadPart`.  The result is the returned `bool` with the
final state; the handler of `__except` runs for `EXCEPTION_IN_PAGE_ERROR` only.

Range of the model: `bytesProcessed` and the block length are computed as the code computes
them, modulo `2 ^ 64` and through the cast to `long long`; `pIn` and `pOut` are exact sums, and
the transform is a function on memory that never faults by itself.  So the model is the code as
long as every block handed to the transform lies inside the two views, which is the case when
the file size rounded up to whole blocks is below `2 ^ 63`.  Past that the code hands the
transform a block that reaches beyond its view (the trace shows it), and what follows, an access
violation that the filter of `__except` lets through or a pointer that wraps at `2 ^ 64`, is
not described here: the theorems that assert a return of `DoProcess` are stated inside that
range, and the counterexamples outside it only exhibit the invocations that leave the views. -/
def DoProcess (env : Env) (inMem : Buf) (ptrInFile ptrOutFile : Nat) (fileSize : Int)
    (m_blockSizeInBytes : Nat) (processFunc : TProcessFunc) :
    Nat → MapState → Option (Bool × MapState)
  | 0, _ => none
  | fuel + 1, s =>
    if (s.pIn : Int) < (ptrInFile : Int) + fileSize then
      let blockSize : Nat :=
        if toInt64 (s.bytesProcessed + m_blockSizeInBytes) < fileSize then m_blockSizeInBytes
        else toSizeT (fileSize - (s.bytesProcessed : Int))
      let calls := s.calls ++ [⟨s.pIn, s.pOut, blockSize⟩]
      if env.pageError s.calls.length then
        some (false, { s with log := s.log ++ [.fatalMappedAccess], calls := calls })
      else
        let r := processFunc s.calls.length (fun i => inMem (s.pIn - ptrInFile + i))
          (fun i => s.outMem (s.pOut - ptrOutFile + i)) blockSize
        DoProcess env inMem ptrInFile ptrOutFile fileSize m_blockSizeInBytes processFunc fuel
          { s with pIn := s.pIn + blockSize, pOut := s.pOut + blockSize,
                   bytesProcessed := (s.bytesProcessed + m_blockSizeInBytes) % 2 ^ 64,
                   outMem := fun a => if s.pOut - ptrOutFile ≤ a
                     then r.2 (a - (s.pOut - ptrOutFile)) else s.outMem a,
                   calls := calls }
    else some (true, s)

/-- The state in which `DoProcess` enters its loop: `pIn = ptrInFile`, `pOut = ptrOutFile`,
nothing processed, the output view still holding the zero bytes of the fresh file. -/
def MapState.init (ptrInFile ptrOutFile : Nat) : MapState :=
  { pIn := ptrInFile, pOut := ptrOutFile, bytesProcessed := 0, outMem := zeroBuf, log := [],
    calls := [] }

/-- The call `CreateFileMapping` on the input file with size 0 (the whole file): it fails
for an empty file and where the environment says so. -/
def createInputMapping (env : Env) (data : List Byte) : Option (List Byte) :=
  if env.inputMapOK ∧ data ≠ [] then some data else none

/-- The call `CreateFileMapping` on the output file with the size of the input: on success the
output file has that many bytes. -/
def createOutputMapping (env : Env) (fileSize : Nat) : Option (List Byte) :=
  if env.outputMapOK then some (List.replicate fileSize 0) else none

/-- The call `UnmapViewOfFile(p)` on the list of mapped views. -/
def UnmapViewOfFile (views : List Nat) (p : Nat) : List Nat := views.erase p

/-- The method `MappedWinFileTransformer::Process`. -/
def MappedWinFileTransformer.Process (t : FileTransformer) (env : Env) (disk : Disk)
    (processFunc : TProcessFunc) (fuel : Nat) : Option Outcome :=
  match make_HANDLE_unique_ptr (openExisting disk) t.m_strFirstFile with
  | (none, log) => some (earlyReturn disk log)
  | (some data, _) =>
    match make_HANDLE_unique_ptr (createAlways env) t.m_strSecondFile with
    | (none, log) => some (earlyReturn disk log)
    | (some created, _) =>
      let complete := false
      let fileSize : Nat := data.length
      match make_HANDLE_unique_ptr (createInputMapping env data) "Input map" with
      | (none, log) =>
        some { result := false, second := some created, log := log, calls := [], views := [] }
      | (some _, _) =>
        let ptrInFile := env.ptrInFile
        if ptrInFile = 0 then
          some { result := false, second := some created, log := [.cannotMapInput], calls := [],
                 views := [] }
        else
          let views1 := [ptrInFile]
          match make_HANDLE_unique_ptr (createOutputMapping env fileSize) "Output map" with
          | (none, log) =>
            some { result := false, second := some created, log := log, calls := [],
                   views := views1 }
          | (some sized, _) =>
            let ptrOutFile := env.ptrOutFile
            if ptrOutFile = 0 then
              some { result := false, second := some sized, log := [.cannotMapOutput],
                     calls := [], views := UnmapViewOfFile views1 ptrInFile }
            else
              let views2 := views1 ++ [ptrOutFile]
              match DoProcess env (fun i => data.getD i 0) ptrInFile ptrOutFile (fileSize : Int)
                  t.m_blockSizeInBytes processFunc fuel (.init ptrInFile ptrOutFile) with
              | none => none
              | some (_, s) =>
                some { result := complete, second := some (bufBytes s.outMem fileSize),
                       log := s.log ++ [summary t (toSizeT (fileSize : Int) / t.m_blockSizeInBytes)],
                       calls := s.calls,
                       views := UnmapViewOfFile (UnmapViewOfFile views2 ptrOutFile) ptrInFile }

/-! ## Reference values the claims speak of -/

/-- The number `ceil(n / b)`. -/
def ceilDiv (n b : Nat) : Nat := (n + b - 1) / b

/-- The block lengths the claims expect for `N` bytes in blocks of `B`: `floor(N / B)` full
blocks, then one block of `N mod B` bytes when that is not zero. -/
def blockSizes (B N : Nat) : List Nat :=
  List.replicate (N / B) B ++ (if N % B = 0 then [] else [N % B])

/-- The invocations expected of a read/write backend. -/
def bufferedCalls (B N : Nat) : List Call := (blockSizes B N).map fun n => ⟨0, 0, n⟩

/-- The invocations expected of `DoProcess`: invocation `k` at `base + k * B` with length
`min B (N - k * B)`, for `k` below `ceil(N / B)`. -/
def mappedCalls (ptrInFile ptrOutFile B N : Nat) : List Call :=
  (List.range (ceilDiv N B)).map fun k => ⟨ptrInFile + k * B, ptrOutFile + k * B, min B (N - k * B)⟩

/-- The events of a log that are calls of `Logger::PrintErrorTransformingFile`. -/
def transformErrors (log : List LogEvent) : List LogEvent :=
  log.filter fun e => match e with
    | .errorTransformingFile _ _ => true
    | _ => false

/-- The events of a log that are calls of `Logger::PrintTransformSummary`. -/
def summaries (log : List LogEvent) : List LogEvent :=
  log.filter fun e => match e with
    | .transformSummary _ _ _ _ => true
    | _ => false

/-! ## Concrete inputs used by the witnesses and counterexamples -/

/-- An environment in which nothing fails; the two views are mapped at 4096 and 8192. -/
def idealEnv : Env :=
  { secondWritable := true, readFails := fun _ => false, written := fun _ n => n,
    writeOK := fun _ => true, inputMapOK := true, ptrInFile := 4096, outputMapOK := true,
    ptrOutFile := 8192, pageError := fun _ => false }

/-- A transformer of the files "in" and "out" with the given block size. -/
def transformerOf (blockSizeInBytes : Nat) : FileTransformer :=
  { m_strFirstFile := "in", m_strSecondFile := "out", m_blockSizeInBytes := blockSizeInBytes,
    m_useSequential := false }

/-- The environment `idealEnv`, except that invocation `k` raises `EXCEPTION_IN_PAGE_ERROR`. -/
def pageErrorAt (k : Nat) : Env :=
  { idealEnv with pageError := fun i => decide (i = k) }

/-- The environment `idealEnv`, except that `CreateFileMapping` fails on the output file. -/
def outputMapFails : Env :=
  { idealEnv with outputMapOK := false }

/-- A transform that copies like `identityTransform` and returns `false` on invocation `j`,
`true` on every other one. -/
def failingOn (j : Nat) : TProcessFunc :=
  fun k inBuf outBuf n => (decide (k ≠ j), (identityTransform k inBuf outBuf n).2)

/-! ## Arithmetic of blocks -/

theorem ceilDiv_zero (B : Nat) : ceilDiv 0 B = 0 := by
  unfold ceilDiv
  rcases Nat.eq_zero_or_pos B with h | h
  · subst h; simp
  · exact Nat.div_eq_of_lt (by omega)

theorem ceilDiv_step (n B : Nat) (hn : 0 < n) (hB : 0 < B) :
    ceilDiv n B = ceilDiv (n - B) B + 1 := by
  unfold ceilDiv
  rcases Nat.lt_or_ge n B with h | h
  · have h0 : n - B = 0 := by omega
    rw [h0]
    have h1 : (0 + B - 1) / B = 0 := Nat.div_eq_of_lt (by omega)
    rw [h1]
    exact Nat.div_eq_of_lt_le (by omega) (by omega)
  · have h2 : n + B - 1 = (n - B + B - 1) + B := by omega
    rw [h2, Nat.add_div_right _ hB]

theorem blockSizes_zero (B : Nat) : blockSizes B 0 = [] := by
  simp [blockSizes]

theorem blockSizes_step (n B : Nat) (hn : 0 < n) (hB : 0 < B) :
    blockSizes B n = min B n :: blockSizes B (n - B) := by
  unfold blockSizes
  rcases Nat.lt_or_ge n B with h | h
  · have h0 : n - B = 0 := by omega
    have h1 : n / B = 0 := Nat.div_eq_of_lt h
    have h2 : n % B = n := Nat.mod_eq_of_lt h
    have h3 : min B n = n := by omega
    have h4 : n ≠ 0 := by omega
    simp [h0, h1, h2, h3, h4]
  · have h1 : n / B = (n - B) / B + 1 := by
      conv_lhs => rw [show n = (n - B) + B by omega]
      rw [Nat.add_div_right _ hB]
    have h2 : n % B = (n - B) % B := by
      conv_lhs => rw [show n = (n - B) + B by omega]
      rw [Nat.add_mod_right]
    have h3 : min B n = B := by omega
    rw [h1, h2, h3, List.replicate_succ, List.cons_append]

theorem bufferedCalls_zero (B : Nat) : bufferedCalls B 0 = [] := by
  simp [bufferedCalls, blockSizes_zero]

theorem bufferedCalls_step (n B : Nat) (hn : 0 < n) (hB : 0 < B) :
    bufferedCalls B n = ⟨0, 0, min B n⟩ :: bufferedCalls B (n - B) := by
  simp [bufferedCalls, blockSizes_step n B hn hB]

/-! ## Block buffers -/

theorem bufBytes_bufStore (b : Buf) (chunk : List Byte) :
    bufBytes (bufStore b chunk) chunk.length = chunk := by
  apply List.ext_getElem
  · simp [bufBytes]
  · intro i h1 h2
    simp [bufBytes, bufStore, List.getD_eq_getElem?_getD, List.getElem?_eq_getElem h2]

theorem drop_take_length (B : Nat) (l : List Byte) :
    List.drop (List.take B l).length l = List.drop B l := by
  rw [List.length_take]
  rcases Nat.le_total B l.length with h | h
  · rw [Nat.min_eq_left h]
  · rw [Nat.min_eq_right h, List.drop_eq_nil_of_le (Nat.le_refl _), List.drop_eq_nil_of_le h]

theorem bufBytes_identity (k : Nat) (inBuf outBuf : Buf) (n : Nat) :
    bufBytes (identityTransform k inBuf outBuf n).2 n = bufBytes inBuf n := by
  unfold bufBytes identityTransform
  apply List.map_congr_left
  intro i hi
  simp [List.mem_range.mp hi]

/-! ## The stdio loop when nothing fails -/

theorem stdio_loop_ideal (B : Nat) (env : Env) (f : TProcessFunc) (hB : 0 < B)
    (hr : ∀ k, env.readFails k = false) (hw : ∀ k n, env.written k n = n) :
    ∀ (n : Nat) (s : LoopState) (fuel : Nat), s.rest.length = n → (s.eof = true → s.rest = []) →
      n < fuel →
      ∃ s1, StdioFileTransformer.loop B env f fuel s = some (true, s1) ∧
        s1.blockCount = s.blockCount + ceilDiv n B ∧
        s1.calls = s.calls ++ bufferedCalls B n ∧
        s1.log = s.log ∧
        (f = identityTransform → s1.out = s.out ++ s.rest) := by
  intro n
  induction n using Nat.strong_induction_on with
  | _ n ih =>
    intro s fuel hlen heof hfuel
    match fuel, hfuel with
    | fuel + 1, hfuel =>
      rw [StdioFileTransformer.loop]
      by_cases he : s.eof = true
      · have hnil := heof he
        have hn : n = 0 := by rw [← hlen, hnil]; rfl
        subst hn
        refine ⟨s, by simp [he], by simp [ceilDiv_zero], by simp [bufferedCalls_zero], rfl, ?_⟩
        intro _; simp [hnil]
      · simp only [he, hr, Bool.false_eq_true, if_false]
        by_cases h0 : (List.take B s.rest).length = 0
        · have hn : n = 0 := by
            rw [List.length_take] at h0; omega
          subst hn
          have hnil : s.rest = [] := List.length_eq_zero.mp hlen
          simp only [h0, if_true]
          refine ⟨_, rfl, by simp [ceilDiv_zero], by simp [bufferedCalls_zero], rfl, ?_⟩
          intro _; simp [hnil]
        · have hnpos : 0 < n := by
            rw [List.length_take] at h0; omega
          simp only [h0, if_false, hw, Nat.min_self, ne_eq, not_true_eq_false]
          have hlt : (List.drop B s.rest).length < n := by
            rw [List.length_drop]; omega
          obtain ⟨s1, h1, h2, h3, h4, h5⟩ := ih _ hlt
            { s with rest := s.rest.drop B, eof := decide ((List.take B s.rest).length < B),
                     inBuf := bufStore s.inBuf (List.take B s.rest),
                     outBuf := (f s.calls.length (bufStore s.inBuf (List.take B s.rest)) s.outBuf
                       (List.take B s.rest).length).2,
                     out := s.out ++ bufBytes (f s.calls.length
                       (bufStore s.inBuf (List.take B s.rest)) s.outBuf
                       (List.take B s.rest).length).2 (List.take B s.rest).length,
                     log := s.log,
                     calls := s.calls ++ [⟨0, 0, (List.take B s.rest).length⟩],
                     blockCount := s.blockCount + 1 }
            fuel rfl
            (by
              intro h
              simp only [decide_eq_true_eq, List.length_take] at h
              apply List.drop_eq_nil_of_le
              omega)
            (by omega)
          refine ⟨s1, h1, ?_, ?_, h4, ?_⟩
          · rw [h2, ceilDiv_step n B hnpos hB, List.length_drop, hlen]
            simp only; omega
          · rw [h3, bufferedCalls_step n B hnpos hB, List.length_drop, hlen, List.length_take, hlen]
            simp
          · intro hf
            rw [h5 hf]
            subst hf
            simp only [bufBytes_identity, bufBytes_bufStore, List.append_assoc,
              List.take_append_drop]

/-! ## The stream loop when nothing fails -/

theorem iostream_loop_ideal (B : Nat) (env : Env) (f : TProcessFunc) (hB : 0 < B)
    (hr : ∀ k, env.readFails k = false) (hw : ∀ k n, env.written k n = n) :
    ∀ (n : Nat) (s : LoopState) (fuel : Nat), s.rest.length = n → (s.eof = true → s.rest = []) →
      (s.eof = false → s.failbit = false) → s.badbit = false → s.outFail = false →
      s.outBad = false → n < fuel →
      ∃ s1, IoStreamFileTransformer.loop B env f fuel s = some (true, s1) ∧
        s1.blockCount = s.blockCount + ceilDiv n B ∧
        s1.calls = s.calls ++ bufferedCalls B n ∧
        s1.log = s.log ∧
        (f = identityTransform → s1.out = s.out ++ s.rest) := by
  intro n
  induction n using Nat.strong_induction_on with
  | _ n ih =>
    intro s fuel hlen heof hfail hbad hof hob hfuel
    match fuel, hfuel with
    | fuel + 1, hfuel =>
      rw [IoStreamFileTransformer.loop]
      by_cases he : s.eof = true
      · have hnil := heof he
        have hn : n = 0 := by rw [← hlen, hnil]; rfl
        subst hn
        refine ⟨s, by simp [he], by simp [ceilDiv_zero], by simp [bufferedCalls_zero], rfl, ?_⟩
        intro _; simp [hnil]
      · have he2 : s.eof = false := by simpa using he
        have hf2 := hfail he2
        simp only [he2, hf2, hbad, hr, hof, hob, Bool.or_false, Bool.not_false, Bool.and_false,
          Bool.false_eq_true, if_false, Bool.and_true, Bool.true_and, Bool.false_or]
        by_cases h0 : (List.take B s.rest).length = 0
        · have hn : n = 0 := by
            rw [List.length_take] at h0; omega
          subst hn
          have hnil : s.rest = [] := List.length_eq_zero.mp hlen
          simp only [h0, if_true]
          refine ⟨_, rfl, by simp [ceilDiv_zero], by simp [bufferedCalls_zero], rfl, ?_⟩
          intro _; simp [hnil]
        · have hnpos : 0 < n := by
            rw [List.length_take] at h0; omega
          have hlt : (List.drop B s.rest).length < n := by
            rw [List.length_drop]; omega
          have key : ∀ X : LoopState, X.rest = s.rest.drop B →
              (X.eof = true → X.rest = []) → (X.eof = false → X.failbit = false) →
              X.badbit = false → X.outFail = false → X.outBad = false →
              X.blockCount = s.blockCount + 1 →
              X.calls = s.calls ++ [⟨0, 0, min B n⟩] → X.log = s.log →
              (f = identityTransform → X.out = s.out ++ s.rest.take B) →
              ∃ s1, IoStreamFileTransformer.loop B env f fuel X = some (true, s1) ∧
                s1.blockCount = s.blockCount + ceilDiv n B ∧
                s1.calls = s.calls ++ bufferedCalls B n ∧
                s1.log = s.log ∧
                (f = identityTransform → s1.out = s.out ++ s.rest) := by
            intro X hXr hXe hXf hXb hXof hXob hXc hXcalls hXlog hXout
            obtain ⟨s1, h1, h2, h3, h4, h5⟩ := ih _ hlt X fuel (by rw [hXr]) hXe hXf hXb hXof hXob
              (by omega)
            refine ⟨s1, h1, ?_, ?_, by rw [h4, hXlog], ?_⟩
            · rw [h2, hXc, ceilDiv_step n B hnpos hB, List.length_drop, hlen]; omega
            · rw [h3, hXcalls, bufferedCalls_step n B hnpos hB, List.length_drop, hlen]; simp
            · intro hf
              rw [h5 hf, hXout hf, hXr, List.append_assoc, List.take_append_drop]
          simp only [h0, if_false, hw, Nat.min_self, ne_eq, not_true_eq_false, decide_False,
            Bool.or_false, Bool.false_eq_true]
          apply key
          · exact drop_take_length B s.rest
          · intro h
            simp only [decide_eq_true_eq, List.length_take] at h
            simp only [drop_take_length]
            apply List.drop_eq_nil_of_le
            omega
          · intro h
            simpa using h
          · rfl
          · rfl
          · rfl
          · rfl
          · simp [hlen]
          · rfl
          · intro hf
            subst hf
            simp only [bufBytes_identity, bufBytes_bufStore]

/-! ## The handle loop when nothing fails -/

theorem win_loop_ideal (B : Nat) (env : Env) (f : TProcessFunc)
    (hB : 0 < toDWORD B)
    (hr : ∀ k, env.readFails k = false) (hw : ∀ k n, env.written k n = n)
    (hok : ∀ k, env.writeOK k = true) :
    ∀ (n : Nat) (s : LoopState) (fuel : Nat), s.rest.length = n → s.writeOK = true →
      n < fuel →
      ∃ s1, WinFileTransformer.loop B env f fuel s = some s1 ∧
        s1.blockCount = s.blockCount + ceilDiv n (toDWORD B) ∧
        s1.calls = s.calls ++ bufferedCalls (toDWORD B) n ∧
        s1.log = s.log ∧
        (f = identityTransform → s1.out = s.out ++ s.rest) := by
  intro n
  induction n using Nat.strong_induction_on with
  | _ n ih =>
    intro s fuel hlen hwok hfuel
    match fuel, hfuel with
    | fuel + 1, hfuel =>
      rw [WinFileTransformer.loop]
      simp only [hr, Bool.false_eq_true, if_false, hwok, and_true]
      by_cases h0 : 0 < (List.take (toDWORD B) s.rest).length
      · have hnpos : 0 < n := by
          rw [List.length_take] at h0; omega
        have hlt : (List.drop (toDWORD B) s.rest).length < n := by
          rw [List.length_drop]; omega
        have key : ∀ X : LoopState, X.rest = s.rest.drop (toDWORD B) → X.writeOK = true →
            X.blockCount = s.blockCount + 1 →
            X.calls = s.calls ++ [⟨0, 0, min (toDWORD B) n⟩] → X.log = s.log →
            (f = identityTransform → X.out = s.out ++ s.rest.take (toDWORD B)) →
            ∃ s1, WinFileTransformer.loop B env f fuel X = some s1 ∧
              s1.blockCount = s.blockCount + ceilDiv n (toDWORD B) ∧
              s1.calls = s.calls ++ bufferedCalls (toDWORD B) n ∧
              s1.log = s.log ∧
              (f = identityTransform → s1.out = s.out ++ s.rest) := by
          intro X hXr hXw hXc hXcalls hXlog hXout
          obtain ⟨s1, h1, h2, h3, h4, h5⟩ := ih _ hlt X fuel (by rw [hXr]) hXw (by omega)
          refine ⟨s1, h1, ?_, ?_, by rw [h4, hXlog], ?_⟩
          · rw [h2, hXc, ceilDiv_step n _ hnpos hB, List.length_drop, hlen]; omega
          · rw [h3, hXcalls, bufferedCalls_step n _ hnpos hB, List.length_drop, hlen]; simp
          · intro hf
            rw [h5 hf, hXout hf, hXr, List.append_assoc, List.take_append_drop]
        simp only [h0, if_true, hw, Nat.min_self, ne_eq, not_true_eq_false, if_false, hok]
        apply key
        · rfl
        · rfl
        · rfl
        · simp [hlen]
        · rfl
        · intro hf
          subst hf
          simp only [bufBytes_identity, bufBytes_bufStore]
      · have hn : n = 0 := by
          rw [List.length_take] at h0; omega
        subst hn
        have hnil : s.rest = [] := List.length_eq_zero.mp hlen
        simp only [h0, if_false]
        refine ⟨_, rfl, by simp [ceilDiv_zero], by simp [bufferedCalls_zero], rfl, ?_⟩
        intro _; simp [hnil]

/-! ## The loop of `DoProcess` when nothing faults and nothing overflows -/

theorem mappedCalls_zero (p q B : Nat) : mappedCalls p q B 0 = [] := by
  simp [mappedCalls, ceilDiv_zero]

theorem mappedCalls_step (p q r B : Nat) (hr : 0 < r) (hB : 0 < B) :
    mappedCalls p q B r = ⟨p, q, min B r⟩ :: mappedCalls (p + B) (q + B) B (r - B) := by
  unfold mappedCalls
  rw [ceilDiv_step r B hr hB, List.range_succ_eq_map, List.map_cons, List.map_map]
  congr 1
  · simp
  · apply List.map_congr_left
    intro k _
    simp only [Function.comp, Nat.succ_eq_add_one, Call.mk.injEq]
    refine ⟨by rw [Nat.add_mul]; omega, by rw [Nat.add_mul]; omega, ?_⟩
    rw [Nat.add_mul]
    congr 1
    omega

theorem toInt64_small (x : Nat) (h : x < 2 ^ 63) : toInt64 x = (x : Int) := by
  unfold toInt64
  have h1 : x % 2 ^ 64 = x := Nat.mod_eq_of_lt (by omega)
  rw [h1, if_pos h]

theorem toSizeT_small (x : Nat) (h : x < 2 ^ 64) : toSizeT (x : Int) = x := by
  unfold toSizeT
  have h1 : ((x : Int) % 2 ^ 64) = (x : Int) := Int.emod_eq_of_lt (by omega) (by omega)
  rw [h1]
  simp

theorem le_ceilDiv_mul (r B : Nat) (hB : 0 < B) : r ≤ ceilDiv r B * B := by
  unfold ceilDiv
  have h1 := Nat.div_add_mod (r + B - 1) B
  have h2 := Nat.mod_lt (r + B - 1) hB
  have h3 : B * ((r + B - 1) / B) = (r + B - 1) / B * B := Nat.mul_comm _ _
  omega

theorem DoProcess_ideal (env : Env) (inMem : Buf) (ptrInFile ptrOutFile N B : Nat)
    (f : TProcessFunc) (hB : 0 < B) (hp : ∀ k, env.pageError k = false) :
    ∀ (r : Nat) (s : MapState) (o fuel : Nat), N - o = r → o ≤ N →
      s.pIn = ptrInFile + o → s.pOut = ptrOutFile + o → (o < N → s.bytesProcessed = o) →
      o + ceilDiv (N - o) B * B < 2 ^ 63 → r < fuel →
      ∃ s1, DoProcess env inMem ptrInFile ptrOutFile (N : Int) B f fuel s = some (true, s1) ∧
        s1.calls = s.calls ++ mappedCalls (ptrInFile + o) (ptrOutFile + o) B (N - o) ∧
        s1.log = s.log ∧
        (f = identityTransform → (∀ a, a < o → s.outMem a = inMem a) →
          ∀ a, a < N → s1.outMem a = inMem a) := by
  intro r
  induction r using Nat.strong_induction_on with
  | _ r ih =>
    intro s o fuel hr ho hpin hpout hbp hrange hfuel
    match fuel, hfuel with
    | fuel + 1, hfuel =>
      rw [DoProcess]
      by_cases hlt : o < N
      · have hcond : (s.pIn : Int) < (ptrInFile : Int) + (N : Int) := by
          rw [hpin]; push_cast; omega
        have hbp2 := hbp hlt
        have hc1 : 1 ≤ ceilDiv (N - o) B := by
          rw [ceilDiv_step (N - o) B (by omega) hB]; omega
        have hsum : o + B < 2 ^ 63 := by
          have : 1 * B ≤ ceilDiv (N - o) B * B := Nat.mul_le_mul_right B hc1
          omega
        have hbs : (if toInt64 (s.bytesProcessed + B) < (N : Int) then B
            else toSizeT ((N : Int) - (s.bytesProcessed : Int))) = min B (N - o) := by
          rw [hbp2, toInt64_small _ hsum]
          by_cases hh : ((o + B : Nat) : Int) < (N : Int)
          · rw [if_pos hh]
            have : o + B < N := by exact_mod_cast hh
            omega
          · rw [if_neg hh]
            have h1 : ¬ (o + B < N) := by
              intro h; apply hh; exact_mod_cast h
            have h2 : (N : Int) - (o : Int) = ((N - o : Nat) : Int) := by omega
            rw [h2, toSizeT_small _ (by omega)]
            omega
        simp only [hcond, if_true, hp, Bool.false_eq_true, if_false, hbs]
        have hlen : 0 < min B (N - o) := by omega
        have key : ∀ X : MapState, X.pIn = ptrInFile + (o + min B (N - o)) →
            X.pOut = ptrOutFile + (o + min B (N - o)) →
            (o + min B (N - o) < N → X.bytesProcessed = o + min B (N - o)) →
            X.calls = s.calls ++ [⟨ptrInFile + o, ptrOutFile + o, min B (N - o)⟩] →
            X.log = s.log →
            (f = identityTransform → (∀ a, a < o → s.outMem a = inMem a) →
              ∀ a, a < o + min B (N - o) → X.outMem a = inMem a) →
            ∃ s1, DoProcess env inMem ptrInFile ptrOutFile (N : Int) B f fuel X
                = some (true, s1) ∧
              s1.calls = s.calls ++ mappedCalls (ptrInFile + o) (ptrOutFile + o) B (N - o) ∧
              s1.log = s.log ∧
              (f = identityTransform → (∀ a, a < o → s.outMem a = inMem a) →
                ∀ a, a < N → s1.outMem a = inMem a) := by
          intro X hXin hXout hXbp hXcalls hXlog hXmem
          have hstep := ceilDiv_step (N - o) B (by omega) hB
          have hrange2 : o + min B (N - o) + ceilDiv (N - (o + min B (N - o))) B * B
              < 2 ^ 63 := by
            rcases Nat.lt_or_ge (N - o) B with h | h
            · have h0 : N - (o + min B (N - o)) = 0 := by omega
              rw [h0, ceilDiv_zero]
              have := le_ceilDiv_mul (N - o) B hB
              omega
            · have h0 : N - (o + min B (N - o)) = N - o - B := by omega
              rw [h0]
              rw [hstep, Nat.add_mul] at hrange
              omega
          obtain ⟨s1, h1, h2, h3, h4⟩ := ih (N - (o + min B (N - o))) (by omega) X
            (o + min B (N - o)) fuel rfl (by omega) hXin hXout hXbp hrange2 (by omega)
          refine ⟨s1, h1, ?_, by rw [h3, hXlog], ?_⟩
          · rw [h2, hXcalls, mappedCalls_step _ _ (N - o) B (by omega) hB, List.append_assoc]
            congr 1
            rcases Nat.lt_or_ge (N - o) B with h | h
            · have h0 : N - (o + min B (N - o)) = 0 := by omega
              have h5 : N - o - B = 0 := by omega
              rw [h0, h5, mappedCalls_zero, mappedCalls_zero]
              rfl
            · have h0 : min B (N - o) = B := by omega
              rw [h0]
              have h5 : N - (o + B) = N - o - B := by omega
              rw [h5, Nat.add_assoc, Nat.add_assoc]
              rfl
          · intro hf hmem
            exact h4 hf (hXmem hf hmem)
        apply key
        · simp only [hpin]; omega
        · simp only [hpout]; omega
        · intro h
          have h6 : min B (N - o) = B := by omega
          simp only [hbp2, h6]
          exact Nat.mod_eq_of_lt (by omega)
        · simp only [hpin, hpout]
        · rfl
        · intro hf hmem a ha
          subst hf
          simp only [hpout, hpin, Nat.add_sub_cancel_left, identityTransform]
          by_cases hoa : o ≤ a
          · simp only [hoa, if_true]
            have h7 : a - o < min B (N - o) := by omega
            simp only [h7, if_true]
            congr 1
            omega
          · simp only [hoa, if_false]
            exact hmem a (by omega)
      · have hcond : ¬ ((s.pIn : Int) < (ptrInFile : Int) + (N : Int)) := by
          rw [hpin]; push_cast; omega
        simp only [hcond, if_false]
        have hoN : o = N := by omega
        refine ⟨s, rfl, ?_, rfl, ?_⟩
        · have : N - o = 0 := by omega
          rw [this, mappedCalls_zero]; simp
        · intro _ hmem a ha
          exact hmem a (by omega)

/-! ## The loop of `DoProcess` with in-page errors, inside the same range -/

theorem DoProcess_total (env : Env) (inMem : Buf) (ptrInFile ptrOutFile N B : Nat)
    (f : TProcessFunc) (hB : 0 < B) :
    ∀ (r : Nat) (s : MapState) (o fuel : Nat), N - o = r → o ≤ N →
      s.pIn = ptrInFile + o → s.pOut = ptrOutFile + o → (o < N → s.bytesProcessed = o) →
      o + ceilDiv (N - o) B * B < 2 ^ 63 → r < fuel →
      ∃ b s1, DoProcess env inMem ptrInFile ptrOutFile (N : Int) B f fuel s = some (b, s1) ∧
        (b = true → s1.log = s.log ∧ s1.calls.length = s.calls.length + ceilDiv (N - o) B) ∧
        (b = false → s1.log = s.log ++ [.fatalMappedAccess]) ∧
        ((∀ k, env.pageError k = false) → b = true) := by
  intro r
  induction r using Nat.strong_induction_on with
  | _ r ih =>
    intro s o fuel hr ho hpin hpout hbp hrange hfuel
    match fuel, hfuel with
    | fuel + 1, hfuel =>
      rw [DoProcess]
      by_cases hlt : o < N
      · have hcond : (s.pIn : Int) < (ptrInFile : Int) + (N : Int) := by
          rw [hpin]; push_cast; omega
        have hbp2 := hbp hlt
        have hstep := ceilDiv_step (N - o) B (by omega) hB
        have hsum : o + B < 2 ^ 63 := by
          have : 1 * B ≤ ceilDiv (N - o) B * B := Nat.mul_le_mul_right B (by omega)
          omega
        have hbs : (if toInt64 (s.bytesProcessed + B) < (N : Int) then B
            else toSizeT ((N : Int) - (s.bytesProcessed : Int))) = min B (N - o) := by
          rw [hbp2, toInt64_small _ hsum]
          by_cases hh : ((o + B : Nat) : Int) < (N : Int)
          · rw [if_pos hh]
            have : o + B < N := by exact_mod_cast hh
            omega
          · rw [if_neg hh]
            have h1 : ¬ (o + B < N) := by
              intro h; apply hh; exact_mod_cast h
            have h2 : (N : Int) - (o : Int) = ((N - o : Nat) : Int) := by omega
            rw [h2, toSizeT_small _ (by omega)]
            omega
        simp only [hcond, if_true, hbs]
        by_cases hpe : env.pageError s.calls.length = true
        · simp only [hpe, if_true]
          refine ⟨false, _, rfl, by simp, by simp, ?_⟩
          intro h
          rw [h] at hpe
          exact absurd hpe (by simp)
        · simp only [hpe, if_false]
          have hrange2 : o + min B (N - o) + ceilDiv (N - (o + min B (N - o))) B * B
              < 2 ^ 63 := by
            rcases Nat.lt_or_ge (N - o) B with h | h
            · have h0 : N - (o + min B (N - o)) = 0 := by omega
              rw [h0, ceilDiv_zero]
              have := le_ceilDiv_mul (N - o) B hB
              omega
            · have h0 : N - (o + min B (N - o)) = N - o - B := by omega
              rw [h0]
              rw [hstep, Nat.add_mul] at hrange
              omega
          have hcount : ceilDiv (N - o) B = ceilDiv (N - (o + min B (N - o))) B + 1 := by
            rcases Nat.lt_or_ge (N - o) B with h | h
            · have h2 : N - (o + min B (N - o)) = 0 := by omega
              have h3 : N - o - B = 0 := by omega
              rw [h2, hstep, h3]
            · have h2 : N - (o + min B (N - o)) = N - o - B := by omega
              rw [h2, hstep]
          have key : ∀ X : MapState, X.pIn = ptrInFile + (o + min B (N - o)) →
              X.pOut = ptrOutFile + (o + min B (N - o)) →
              (o + min B (N - o) < N → X.bytesProcessed = o + min B (N - o)) →
              X.calls.length = s.calls.length + 1 → X.log = s.log →
              ∃ b s1, DoProcess env inMem ptrInFile ptrOutFile (N : Int) B f fuel X
                  = some (b, s1) ∧
                (b = true → s1.log = s.log ∧
                  s1.calls.length = s.calls.length + ceilDiv (N - o) B) ∧
                (b = false → s1.log = s.log ++ [.fatalMappedAccess]) ∧
                ((∀ k, env.pageError k = false) → b = true) := by
            intro X hXin hXout hXbp hXcalls hXlog
            obtain ⟨b, s1, h1, h2, h3, h4⟩ := ih (N - (o + min B (N - o))) (by omega) X
              (o + min B (N - o)) fuel rfl (by omega) hXin hXout hXbp hrange2 (by omega)
            refine ⟨b, s1, h1, ?_, ?_, h4⟩
            · intro hb
              obtain ⟨h5, h6⟩ := h2 hb
              refine ⟨by rw [h5, hXlog], ?_⟩
              rw [h6, hXcalls, hcount]; omega
            · intro hb
              rw [h3 hb, hXlog]
          apply key
          · simp only [hpin]; omega
          · simp only [hpout]; omega
          · intro h
            have h6 : min B (N - o) = B := by omega
            simp only [hbp2, h6]
            exact Nat.mod_eq_of_lt (by omega)
          · simp
          · rfl
      · have hcond : ¬ ((s.pIn : Int) < (ptrInFile : Int) + (N : Int)) := by
          rw [hpin]; push_cast; omega
        simp only [hcond, if_false]
        have h0 : N - o = 0 := by omega
        refine ⟨true, s, rfl, ?_, by simp, by simp⟩
        intro _
        rw [h0, ceilDiv_zero]
        simp

/-! ## `Process` when nothing fails -/

theorem idealEnv_ideal : idealEnv.ideal := by
  simp [Env.ideal, idealEnv]

theorem stdio_Process_ideal (t : FileTransformer) (env : Env) (disk : Disk)
    (data : List Byte) (f : TProcessFunc) (fuel : Nat)
    (hB : 0 < t.m_blockSizeInBytes) (hsrc : disk.first = some data) (henv : env.ideal)
    (hfuel : data.length < fuel) :
    ∃ o, StdioFileTransformer.Process t env disk f fuel = some o ∧ o.result = true ∧
      o.log = [summary t (ceilDiv data.length t.m_blockSizeInBytes)] ∧
      o.calls = bufferedCalls t.m_blockSizeInBytes data.length ∧
      (f = identityTransform → o.second = some data) := by
  obtain ⟨hsw, hr, hw, -⟩ := henv
  obtain ⟨s1, h1, h2, h3, h4, h5⟩ := stdio_loop_ideal t.m_blockSizeInBytes env f
    hB hr hw data.length (.init data) fuel rfl (by intro h; cases h) hfuel
  simp only [StdioFileTransformer.Process, make_fopen, openExisting, hsrc, createAlways, hsw,
    if_true, h1]
  refine ⟨_, rfl, rfl, ?_, ?_, ?_⟩
  · simp only [h4, h2, LoopState.init]; simp
  · simp only [h3, LoopState.init]; simp
  · intro hf
    simp only [h5 hf, LoopState.init]; simp

theorem iostream_Process_ideal (t : FileTransformer) (env : Env) (disk : Disk)
    (data : List Byte) (f : TProcessFunc) (fuel : Nat)
    (hB : 0 < t.m_blockSizeInBytes) (hsrc : disk.first = some data) (henv : env.ideal)
    (hfuel : data.length < fuel) :
    ∃ o, IoStreamFileTransformer.Process t env disk f fuel = some o ∧ o.result = true ∧
      o.log = [summary t (ceilDiv data.length t.m_blockSizeInBytes)] ∧
      o.calls = bufferedCalls t.m_blockSizeInBytes data.length ∧
      (f = identityTransform → o.second = some data) := by
  obtain ⟨hsw, hr, hw, -⟩ := henv
  obtain ⟨s1, h1, h2, h3, h4, h5⟩ := iostream_loop_ideal t.m_blockSizeInBytes env f
    hB hr hw data.length (.init data) fuel rfl (by intro h; cases h) (by intro _; rfl) rfl rfl rfl
    hfuel
  simp only [IoStreamFileTransformer.Process, openExisting, hsrc, createAlways, hsw,
    if_true, Option.getD_some, Option.isNone_some, LoopState.init, Bool.false_eq_true, if_false]
  simp only [LoopState.init] at h1
  simp only [h1, if_true]
  refine ⟨_, rfl, rfl, ?_, ?_, ?_⟩
  · simp only [h4, h2, LoopState.init]; simp
  · simp only [h3, LoopState.init]; simp
  · intro hf
    simp only [h5 hf, LoopState.init]; simp

theorem win_Process_ideal (t : FileTransformer) (env : Env) (disk : Disk)
    (data : List Byte) (f : TProcessFunc) (fuel : Nat)
    (hB : 0 < toDWORD t.m_blockSizeInBytes) (hsrc : disk.first = some data) (henv : env.ideal)
    (hfuel : data.length < fuel) :
    ∃ o, WinFileTransformer.Process t env disk f fuel = some o ∧ o.result = true ∧
      o.log = [summary t (ceilDiv data.length (toDWORD t.m_blockSizeInBytes))] ∧
      o.calls = bufferedCalls (toDWORD t.m_blockSizeInBytes) data.length ∧
      (f = identityTransform → o.second = some data) := by
  obtain ⟨hsw, hr, hw, hok, -⟩ := henv
  obtain ⟨s1, h1, h2, h3, h4, h5⟩ := win_loop_ideal t.m_blockSizeInBytes env f
    hB hr hw hok data.length (.init data) fuel rfl rfl hfuel
  simp only [WinFileTransformer.Process, make_HANDLE_unique_ptr, openExisting, hsrc, createAlways,
    hsw, if_true, h1]
  refine ⟨_, rfl, rfl, ?_, ?_, ?_⟩
  · simp only [h4, h2, LoopState.init]; simp
  · simp only [h3, LoopState.init]; simp
  · intro hf
    simp only [h5 hf, LoopState.init]; simp

theorem bufBytes_eq_of_getD (b : Buf) (data : List Byte)
    (h : ∀ a, a < data.length → b a = data.getD a 0) : bufBytes b data.length = data := by
  apply List.ext_getElem
  · simp [bufBytes]
  · intro i h1 h2
    simp only [bufBytes, List.getElem_map, List.getElem_range]
    rw [h i h2, List.getD_eq_getElem?_getD, List.getElem?_eq_getElem h2]
    rfl

theorem unmap_both (p q : Nat) :
    UnmapViewOfFile (UnmapViewOfFile ([p] ++ [q]) q) p = [] := by
  unfold UnmapViewOfFile
  by_cases h : p = q
  · subst h; simp
  · simp [List.erase_cons, h]

theorem mapped_Process_total (t : FileTransformer) (env : Env) (disk : Disk)
    (data : List Byte) (f : TProcessFunc) (fuel : Nat)
    (hB : 0 < t.m_blockSizeInBytes) (hsrc : disk.first = some data) (hne : data ≠ [])
    (hrange : ceilDiv data.length t.m_blockSizeInBytes * t.m_blockSizeInBytes < 2 ^ 63)
    (hsw : env.secondWritable = true) (him : env.inputMapOK = true) (hpi : env.ptrInFile ≠ 0)
    (hom : env.outputMapOK = true) (hpo : env.ptrOutFile ≠ 0) (hfuel : data.length < fuel) :
    ∃ b s1 o, DoProcess env (fun i => data.getD i 0) env.ptrInFile env.ptrOutFile
        (data.length : Int) t.m_blockSizeInBytes f fuel (.init env.ptrInFile env.ptrOutFile)
        = some (b, s1) ∧
      MappedWinFileTransformer.Process t env disk f fuel = some o ∧
      o.result = false ∧ o.views = [] ∧ o.calls = s1.calls ∧
      o.second = some (bufBytes s1.outMem data.length) ∧
      o.log = s1.log ++ [summary t (data.length / t.m_blockSizeInBytes)] ∧
      (b = true → s1.log = [] ∧ s1.calls.length = ceilDiv data.length t.m_blockSizeInBytes) ∧
      (b = false → s1.log = [.fatalMappedAccess]) ∧
      ((∀ k, env.pageError k = false) → b = true) := by
  have hN := le_ceilDiv_mul data.length t.m_blockSizeInBytes hB
  obtain ⟨b, s1, h1, h2, h3, h4⟩ := DoProcess_total env (fun i => data.getD i 0) env.ptrInFile
    env.ptrOutFile data.length t.m_blockSizeInBytes f hB data.length
    (.init env.ptrInFile env.ptrOutFile) 0 fuel rfl (Nat.zero_le _) rfl rfl (by intro _; rfl)
    (by simpa using hrange) hfuel
  have hP : MappedWinFileTransformer.Process t env disk f fuel = some
      { result := false, second := some (bufBytes s1.outMem data.length),
        log := s1.log ++ [summary t (toSizeT (data.length : Int) / t.m_blockSizeInBytes)],
        calls := s1.calls,
        views := UnmapViewOfFile (UnmapViewOfFile ([env.ptrInFile] ++ [env.ptrOutFile])
          env.ptrOutFile) env.ptrInFile } := by
    simp only [MappedWinFileTransformer.Process, make_HANDLE_unique_ptr, openExisting, hsrc,
      createAlways, hsw, if_true, createInputMapping, him, hne, ne_eq, not_false_eq_true,
      and_self, hpi, if_false, createOutputMapping, hom, hpo, h1]
  refine ⟨b, s1, _, h1, hP, ?_⟩
  · refine ⟨rfl, unmap_both _ _, rfl, rfl, ?_, ?_, ?_, h4⟩
    · simp only [toSizeT_small data.length (by omega)]
    · intro hb
      obtain ⟨h5, h6⟩ := h2 hb
      refine ⟨by simpa [MapState.init] using h5, ?_⟩
      simpa [MapState.init] using h6
    · intro hb
      simpa [MapState.init] using h3 hb

theorem mapped_Process_ideal (t : FileTransformer) (env : Env) (disk : Disk)
    (data : List Byte) (f : TProcessFunc) (fuel : Nat)
    (hB : 0 < t.m_blockSizeInBytes) (hsrc : disk.first = some data) (hne : data ≠ [])
    (hrange : ceilDiv data.length t.m_blockSizeInBytes * t.m_blockSizeInBytes < 2 ^ 63)
    (henv : env.ideal) (hfuel : data.length < fuel) :
    ∃ o, MappedWinFileTransformer.Process t env disk f fuel = some o ∧ o.result = false ∧
      o.log = [summary t (data.length / t.m_blockSizeInBytes)] ∧
      o.calls = mappedCalls env.ptrInFile env.ptrOutFile t.m_blockSizeInBytes data.length ∧
      o.views = [] ∧
      (f = identityTransform → o.second = some data) := by
  obtain ⟨hsw, -, -, -, him, hpi, hom, hpo, hp⟩ := henv
  have hN := le_ceilDiv_mul data.length t.m_blockSizeInBytes hB
  obtain ⟨b, s1, o, h1, h2, h3, h4, h5, h6, h7, h8, h9, h10⟩ :=
    mapped_Process_total t env disk data f fuel hB hsrc hne hrange hsw him
      hpi hom hpo hfuel
  obtain ⟨s2, k1, k2, k3, k4⟩ := DoProcess_ideal env (fun i => data.getD i 0) env.ptrInFile
    env.ptrOutFile data.length t.m_blockSizeInBytes f hB hp data.length
    (.init env.ptrInFile env.ptrOutFile) 0 fuel rfl (Nat.zero_le _) rfl rfl (by intro _; rfl)
    (by simpa using hrange) hfuel
  rw [h1] at k1
  have hb : b = true := by injection k1 with k1; injection k1
  have hs : s1 = s2 := by injection k1 with k1; injection k1
  subst hs
  refine ⟨o, h2, h3, ?_, ?_, h4, ?_⟩
  · rw [h7, (h8 hb).1]; rfl
  · rw [h5, k2]; simp [MapState.init]
  · intro hf
    rw [h6, bufBytes_eq_of_getD s1.outMem data (k4 hf (by intro a ha; omega))]

/-! ## The loops when the read after `k` full blocks fails -/

theorem toDWORD_small (B : Nat) (h : B < 2 ^ 32) : toDWORD B = B :=
  Nat.mod_eq_of_lt h

theorem floor_succ_eq_ceilDiv (N B : Nat) (hB : 0 < B) (h : N % B ≠ 0) :
    N / B + 1 = ceilDiv N B := by
  unfold ceilDiv
  symm
  have h1 := Nat.div_add_mod N B
  have h2 := Nat.mod_lt N hB
  have h3 : B * (N / B) = N / B * B := Nat.mul_comm _ _
  apply Nat.div_eq_of_lt_le
  · rw [Nat.add_mul]; omega
  · rw [Nat.add_mul, Nat.add_mul]; omega

theorem floor_eq_ceilDiv (N B : Nat) (hB : 0 < B) (h : N % B = 0) :
    N / B = ceilDiv N B := by
  unfold ceilDiv
  symm
  have h1 := Nat.div_add_mod N B
  have h3 : B * (N / B) = N / B * B := Nat.mul_comm _ _
  apply Nat.div_eq_of_lt_le
  · omega
  · rw [Nat.add_mul]; omega

theorem blockSizes_length (B : Nat) (hB : 0 < B) (N : Nat) :
    (blockSizes B N).length = ceilDiv N B := by
  unfold blockSizes
  by_cases h : N % B = 0
  · simp [h, floor_eq_ceilDiv N B hB h]
  · simp [h, floor_succ_eq_ceilDiv N B hB h]

theorem bufferedCalls_sizes (B N : Nat) :
    (bufferedCalls B N).map Call.size = blockSizes B N := by
  simp [bufferedCalls, Function.comp_def]

theorem bufferedCalls_length (B : Nat) (hB : 0 < B) (N : Nat) :
    (bufferedCalls B N).length = ceilDiv N B := by
  rw [← blockSizes_length B hB N, ← bufferedCalls_sizes, List.length_map]

theorem mappedCalls_length (p q B N : Nat) : (mappedCalls p q B N).length = ceilDiv N B := by
  simp [mappedCalls]

/-- C2, as the claim states it, fails: with block size `2 ^ 32 + 1` the handle backend reads
`static_cast<DWORD>(2 ^ 32 + 1) = 1` byte at a time and reports 2 blocks for a two-byte source,
where `ceil(2 / (2 ^ 32 + 1))` is 1; for an empty source the mapped backend returns at the
failed input mapping and passes no block count at all; and with block size `2 ^ 63` the mapped
backend hands the transform `2 ^ 63` bytes of views of two bytes, so what it does from there on
is no longer decided by `Process`. -/
theorem summary_count_counterexample :
    WinFileTransformer.Process (transformerOf (2 ^ 32 + 1)) idealEnv ⟨some [1, 2], none⟩
        identityTransform 3
      = some ⟨true, some [1, 2], [.transformSummary 2 (2 ^ 32 + 1) "in" "out"],
          [⟨0, 0, 1⟩, ⟨0, 0, 1⟩], []⟩ ∧
    ceilDiv 2 (2 ^ 32 + 1) = 1 ∧
    MappedWinFileTransformer.Process (transformerOf 2) idealEnv ⟨some [], none⟩
        identityTransform 1
      = some ⟨false, some [], [.cannotOpenFile "Input map"], [], []⟩ ∧
    (MappedWinFileTransformer.Process (transformerOf (2 ^ 63)) idealEnv ⟨some [1, 2], none⟩
        identityTransform 3).map Outcome.calls = some [⟨4096, 8192, 2 ^ 63⟩] :=
  ⟨rfl, by decide, rfl, rfl⟩

/-- C2 (amended): for every source of `N` bytes, block size `B > 0` and transform, when no
operation fails and with enough fuel, the log of `Process` is exactly one summary, whose block
count is `ceil(N / B)` (0 when `N = 0`) in the stdio and stream backends, and in the handle
backend when `B < 2 ^ 32`.  For a non-empty source whose size rounded up to whole blocks stays
below `2 ^ 63`, the mapped backend passes `floor(N / B)` while it invoked the transform
`ceil(N / B)` times, which is one more whenever `B` does not divide `N`.  For an empty source
the mapped backend, whatever the block size, returns `false` without an invocation and without
a summary. -/
theorem summary_block_counts (t : FileTransformer) (env : Env) (disk : Disk)
    (data : List Byte) (f : TProcessFunc) (fuel : Nat) (hB : 0 < t.m_blockSizeInBytes)
    (hsrc : disk.first = some data) (henv : env.ideal) (hfuel : data.length < fuel) :
    (StdioFileTransformer.Process t env disk f fuel).map Outcome.log
      = some [summary t (ceilDiv data.length t.m_blockSizeInBytes)] ∧
    (IoStreamFileTransformer.Process t env disk f fuel).map Outcome.log
      = some [summary t (ceilDiv data.length t.m_blockSizeInBytes)] ∧
    (t.m_blockSizeInBytes < 2 ^ 32 →
      (WinFileTransformer.Process t env disk f fuel).map Outcome.log
        = some [summary t (ceilDiv data.length t.m_blockSizeInBytes)]) ∧
    (data ≠ [] → ceilDiv data.length t.m_blockSizeInBytes * t.m_blockSizeInBytes < 2 ^ 63 →
      (MappedWinFileTransformer.Process t env disk f fuel).map Outcome.log
        = some [summary t (data.length / t.m_blockSizeInBytes)] ∧
      (MappedWinFileTransformer.Process t env disk f fuel).map (fun o => o.calls.length)
        = some (ceilDiv data.length t.m_blockSizeInBytes) ∧
      (data.length % t.m_blockSizeInBytes ≠ 0 →
        data.length / t.m_blockSizeInBytes + 1 = ceilDiv data.length t.m_blockSizeInBytes)) ∧
    (data = [] →
      (MappedWinFileTransformer.Process t env disk f fuel).map
          (fun o => (o.result, summaries o.log, o.calls))
        = some (false, [], [])) ∧
    ceilDiv 0 t.m_blockSizeInBytes = 0 := by
  refine ⟨?_, ?_, ?_, ?_, ?_, ceilDiv_zero _⟩
  · obtain ⟨o, h1, -, h3, -⟩ := stdio_Process_ideal t env disk data f fuel hB hsrc henv hfuel
    rw [h1, Option.map_some', h3]
  · obtain ⟨o, h1, -, h3, -⟩ := iostream_Process_ideal t env disk data f fuel hB hsrc henv hfuel
    rw [h1, Option.map_some', h3]
  · intro h32
    have hE := toDWORD_small _ h32
    obtain ⟨o, h1, -, h3, -⟩ := win_Process_ideal t env disk data f fuel (by omega) hsrc henv
      hfuel
    rw [h1, Option.map_some', h3, hE]
  · intro hne hrange
    obtain ⟨o, h1, -, h3, h4, -⟩ :=
      mapped_Process_ideal t env disk data f fuel hB hsrc hne hrange henv hfuel
    refine ⟨?_, ?_, floor_succ_eq_ceilDiv _ _ hB⟩
    · rw [h1, Option.map_some', h3]
    · rw [h1, Option.map_some', h4, mappedCalls_length]
  · intro hnil
    subst hnil
    obtain ⟨hsw, -⟩ := henv
    simp [MappedWinFileTransformer.Process, make_HANDLE_unique_ptr, openExisting, hsrc,
      createAlways, hsw, createInputMapping, summaries]

/-- C2 (amended) at block size 2: for the source `[1, 2, 3]` the three read/write backends
report 2 blocks and the mapped backend reports 1 after 2 invocations; for the empty source the
mapped backend reports nothing. -/
theorem summary_block_counts_witness :
    (StdioFileTransformer.Process (transformerOf 2) idealEnv ⟨some [1, 2, 3], none⟩
        identityTransform 4).map Outcome.log = some [summary (transformerOf 2) (ceilDiv 3 2)] ∧
    (IoStreamFileTransformer.Process (transformerOf 2) idealEnv ⟨some [1, 2, 3], none⟩
        identityTransform 4).map Outcome.log = some [summary (transformerOf 2) (ceilDiv 3 2)] ∧
    (WinFileTransformer.Process (transformerOf 2) idealEnv ⟨some [1, 2, 3], none⟩
        identityTransform 4).map Outcome.log = some [summary (transformerOf 2) (ceilDiv 3 2)] ∧
    (MappedWinFileTransformer.Process (transformerOf 2) idealEnv ⟨some [1, 2, 3], none⟩
        identityTransform 4).map Outcome.log = some [summary (transformerOf 2) (3 / 2)] ∧
    (MappedWinFileTransformer.Process (transformerOf 2) idealEnv ⟨some [1, 2, 3], none⟩
        identityTransform 4).map (fun o => o.calls.length) = some (ceilDiv 3 2) ∧
    3 / 2 + 1 = ceilDiv 3 2 ∧
    (MappedWinFileTransformer.Process (transformerOf 2) idealEnv ⟨some [], none⟩
        identityTransform 1).map (fun o => (o.result, summaries o.log, o.calls))
      = some (false, [], []) :=
  have h := summary_block_counts (transformerOf 2) idealEnv ⟨some [1, 2, 3], none⟩
    [1, 2, 3] identityTransform 4 (by decide) rfl idealEnv_ideal (by decide)
  have hm := h.2.2.2.1 (by simp) (by decide)
  have h0 := summary_block_counts (transformerOf 2) idealEnv ⟨some [], none⟩
    [] identityTransform 1 (by decide) rfl idealEnv_ideal (by decide)
  ⟨h.1, h.2.1, h.2.2.1 (by decide), hm.1, hm.2.1, hm.2.2 (by decide), h0.2.2.2.2.1 rfl⟩

/-! ## C7: the lengths handed to the transform -/

/-- C6, as the claim states it, fails: with ten one-byte blocks and a transform that returns
`false` on the third, each read/write backend processes all ten blocks and reports ten, but no
`Logger::PrintErrorTransformingFile` event is logged: the log is the summary alone. -/
theorem failing_transform_counterexample :
    (failingOn 2 2 zeroBuf zeroBuf 1).1 = false ∧
    (StdioFileTransformer.Process (transformerOf 1) idealEnv
        ⟨some [0, 1, 2, 3, 4, 5, 6, 7, 8, 9], none⟩ (failingOn 2) 11).map
        (fun o => (o.log, o.calls.length))
      = some ([.transformSummary 10 1 "in" "out"], 10) ∧
    (IoStreamFileTransformer.Process (transformerOf 1) idealEnv
        ⟨some [0, 1, 2, 3, 4, 5, 6, 7, 8, 9], none⟩ (failingOn 2) 11).map
        (fun o => (o.log, o.calls.length))
      = some ([.transformSummary 10 1 "in" "out"], 10) ∧
    (WinFileTransformer.Process (transformerOf 1) idealEnv
        ⟨some [0, 1, 2, 3, 4, 5, 6, 7, 8, 9], none⟩ (failingOn 2) 11).map
        (fun o => (o.log, o.calls.length))
      = some ([.transformSummary 10 1 "in" "out"], 10) ∧
    transformErrors [.transformSummary 10 1 "in" "out"] = [] :=
  ⟨rfl, rfl, rfl, rfl, rfl⟩

/-- C6 (amended): for every source of `N` bytes, block size `B > 0` (`B < 2 ^ 32` in the handle
backend) and every transform, whatever it returns on any block, when no operation fails and
with enough fuel each read/write backend invokes the transform `ceil(N / B)` times, returns
`true` and logs the summary with block count `ceil(N / B)` and nothing else: the value the
transform returns is discarded, so no block-transform-error event is logged. -/
theorem transform_result_is_discarded (t : FileTransformer) (env : Env) (disk : Disk)
    (data : List Byte) (f : TProcessFunc) (fuel : Nat) (hB : 0 < t.m_blockSizeInBytes)
    (hsrc : disk.first = some data) (henv : env.ideal) (hfuel : data.length < fuel) :
    (StdioFileTransformer.Process t env disk f fuel).map
        (fun o => (o.result, o.log, o.calls.length))
      = some (true, [summary t (ceilDiv data.length t.m_blockSizeInBytes)],
          ceilDiv data.length t.m_blockSizeInBytes) ∧
    (IoStreamFileTransformer.Process t env disk f fuel).map
        (fun o => (o.result, o.log, o.calls.length))
      = some (true, [summary t (ceilDiv data.length t.m_blockSizeInBytes)],
          ceilDiv data.length t.m_blockSizeInBytes) ∧
    (t.m_blockSizeInBytes < 2 ^ 32 →
      (WinFileTransformer.Process t env disk f fuel).map
          (fun o => (o.result, o.log, o.calls.length))
        = some (true, [summary t (ceilDiv data.length t.m_blockSizeInBytes)],
            ceilDiv data.length t.m_blockSizeInBytes)) ∧
    transformErrors [summary t (ceilDiv data.length t.m_blockSizeInBytes)] = [] := by
  refine ⟨?_, ?_, ?_, rfl⟩
  · obtain ⟨o, h1, h2, h3, h4, -⟩ := stdio_Process_ideal t env disk data f fuel hB hsrc henv
      hfuel
    rw [h1, Option.map_some', h2, h3, h4, bufferedCalls_length _ hB]
  · obtain ⟨o, h1, h2, h3, h4, -⟩ := iostream_Process_ideal t env disk data f fuel hB hsrc henv
      hfuel
    rw [h1, Option.map_some', h2, h3, h4, bufferedCalls_length _ hB]
  · intro h32
    have hE := toDWORD_small _ h32
    obtain ⟨o, h1, h2, h3, h4, -⟩ := win_Process_ideal t env disk data f fuel (by omega) hsrc
      henv hfuel
    rw [h1, Option.map_some', h2, h3, h4, hE, bufferedCalls_length _ hB]

/-- C6 (amended) at block size 2, the source `[1, 2, 3]` and a transform that returns `false`
on its first block. -/
theorem transform_result_is_discarded_witness :
    (StdioFileTransformer.Process (transformerOf 2) idealEnv ⟨some [1, 2, 3], none⟩
        (failingOn 0) 4).map (fun o => (o.result, o.log, o.calls.length))
      = some (true, [summary (transformerOf 2) (ceilDiv 3 2)], ceilDiv 3 2) ∧
    (IoStreamFileTransformer.Process (transformerOf 2) idealEnv ⟨some [1, 2, 3], none⟩
        (failingOn 0) 4).map (fun o => (o.result, o.log, o.calls.length))
      = some (true, [summary (transformerOf 2) (ceilDiv 3 2)], ceilDiv 3 2) ∧
    (WinFileTransformer.Process (transformerOf 2) idealEnv ⟨some [1, 2, 3], none⟩
        (failingOn 0) 4).map (fun o => (o.result, o.log, o.calls.length))
      = some (true, [summary (transformerOf 2) (ceilDiv 3 2)], ceilDiv 3 2) ∧
    transformErrors [summary (transformerOf 2) (ceilDiv 3 2)] = [] :=
  have h := transform_result_is_discarded (transformerOf 2) idealEnv ⟨some [1, 2, 3], none⟩
    [1, 2, 3] (failingOn 0) 4 (by decide) rfl idealEnv_ideal (by decide)
  ⟨h.1, h.2.1, h.2.2.1 (by decide), h.2.2.2⟩

/-! ## C8: the summary of the mapped backend after a fault -/

/-- C8, as the claim states it, fails: when the first invocation raises an in-page error,
`DoProcess` returns `false` and `Process` still calls `Logger::PrintTransformSummary`.  (With
block size `2 ^ 63` the transform is handed `2 ^ 63` bytes of views of three bytes: such an
invocation is outside what `Process` decides, whence the bound of the amended claim.) -/
theorem mapped_fault_counterexample :
    (DoProcess (pageErrorAt 0) (fun i => [1, 2, 3].getD i 0) 4096 8192 ((3 : Nat) : Int) 2
        identityTransform 4 (.init 4096 8192)).map Prod.fst = some false ∧
    MappedWinFileTransformer.Process (transformerOf 2) (pageErrorAt 0) ⟨some [1, 2, 3], none⟩
        identityTransform 4
      = some ⟨false, some [0, 0, 0], [.fatalMappedAccess, .transformSummary 1 2 "in" "out"],
          [⟨4096, 8192, 2⟩], []⟩ ∧
    summaries [.fatalMappedAccess, .transformSummary 1 2 "in" "out"]
      = [.transformSummary 1 2 "in" "out"] ∧
    (MappedWinFileTransformer.Process (transformerOf (2 ^ 63)) idealEnv ⟨some [1, 2, 3], none⟩
        identityTransform 4).map Outcome.calls = some [⟨4096, 8192, 2 ^ 63⟩] :=
  ⟨rfl, rfl, rfl, rfl⟩

/-- C8 (amended): in the mapped backend, for every non-empty source whose files open and map
and whose size rounded up to whole blocks stays below `2 ^ 63`, with `B > 0` and enough fuel,
`DoProcess` returns, and whether it returns `true` or, after an in-page error, `false`,
`Process` then emits the transfer summary with block count `floor(N / B)`; after a fault the
summary follows the fault message. -/
theorem mapped_summary_is_unconditional (t : FileTransformer) (env : Env) (disk : Disk)
    (data : List Byte) (f : TProcessFunc) (fuel : Nat)
    (hB : 0 < t.m_blockSizeInBytes) (hsrc : disk.first = some data) (hne : data ≠ [])
    (hrange : ceilDiv data.length t.m_blockSizeInBytes * t.m_blockSizeInBytes < 2 ^ 63)
    (hsw : env.secondWritable = true) (him : env.inputMapOK = true) (hpi : env.ptrInFile ≠ 0)
    (hom : env.outputMapOK = true) (hpo : env.ptrOutFile ≠ 0) (hfuel : data.length < fuel) :
    ∃ b s1, DoProcess env (fun i => data.getD i 0) env.ptrInFile env.ptrOutFile
        (data.length : Int) t.m_blockSizeInBytes f fuel (.init env.ptrInFile env.ptrOutFile)
        = some (b, s1) ∧
      ((∀ k, env.pageError k = false) → b = true) ∧
      (MappedWinFileTransformer.Process t env disk f fuel).map Outcome.log
        = some ((if b then [] else [.fatalMappedAccess])
            ++ [summary t (data.length / t.m_blockSizeInBytes)]) := by
  obtain ⟨b, s1, o, h1, h2, -, -, -, -, h7, h8, h9, h10⟩ :=
    mapped_Process_total t env disk data f fuel hB hsrc hne hrange hsw him hpi hom hpo hfuel
  refine ⟨b, s1, h1, h10, ?_⟩
  rw [h2, Option.map_some', h7]
  cases b with
  | true => rw [(h8 rfl).1]; rfl
  | false => rw [h9 rfl]; rfl

/-- C8 (amended) at block size 2, the source `[1, 2, 3]` and an in-page error in the first
invocation. -/
theorem mapped_summary_is_unconditional_witness :
    ∃ b s1, DoProcess (pageErrorAt 0) (fun i => [1, 2, 3].getD i 0) (pageErrorAt 0).ptrInFile
        (pageErrorAt 0).ptrOutFile (([1, 2, 3] : List Byte).length : Int)
        (transformerOf 2).m_blockSizeInBytes identityTransform 4
        (.init (pageErrorAt 0).ptrInFile (pageErrorAt 0).ptrOutFile) = some (b, s1) ∧
      ((∀ k, (pageErrorAt 0).pageError k = false) → b = true) ∧
      (MappedWinFileTransformer.Process (transformerOf 2) (pageErrorAt 0)
          ⟨some [1, 2, 3], none⟩ identityTransform 4).map Outcome.log
        = some ((if b then [] else [.fatalMappedAccess])
            ++ [summary (transformerOf 2)
              (([1, 2, 3] : List Byte).length / (transformerOf 2).m_blockSizeInBytes)]) :=
  mapped_summary_is_unconditional (transformerOf 2) (pageErrorAt 0) ⟨some [1, 2, 3], none⟩
    [1, 2, 3] identityTransform 4 (by decide) rfl (by simp) (by decide) rfl rfl (by decide) rfl
    (by decide) (by decide)

/-! ## C3, C4, C9: where the code departs from the claim -/

/-- C3 is violated by the stream backend: for a source that does not exist the `ifstream` is
constructed with `failbit` set and `badbit` clear, the check `inputStream.bad()` passes, the
destination (here holding the byte 7) is truncated, the summary reports 0 blocks and `Process`
returns `true`.  The other three backends return `false` and leave the destination alone. -/
theorem iostream_missing_source_truncates_destination :
    IoStreamFileTransformer.Process (transformerOf 2) idealEnv ⟨none, some [7]⟩
        identityTransform 1
      = some ⟨true, some [], [.transformSummary 0 2 "in" "out"], [], []⟩ ∧
    (StdioFileTransformer.Process (transformerOf 2) idealEnv ⟨none, some [7]⟩
        identityTransform 1).map (fun o => (o.result, o.second)) = some (false, some [7]) ∧
    (WinFileTransformer.Process (transformerOf 2) idealEnv ⟨none, some [7]⟩
        identityTransform 1).map (fun o => (o.result, o.second)) = some (false, some [7]) ∧
    (MappedWinFileTransformer.Process (transformerOf 2) idealEnv ⟨none, some [7]⟩
        identityTransform 1).map (fun o => (o.result, o.second)) = some (false, some [7]) :=
  ⟨rfl, rfl, rfl, rfl⟩

/-- C4 is violated: for the source `[1, 2, 3]`, with every open and mapping succeeding and
`DoProcess` returning `true`, `Process` copies the file and returns `false`: it returns the
variable `complete`, which is set to `false` and never assigned again. -/
theorem mapped_success_returns_false :
    (DoProcess idealEnv (fun i => [1, 2, 3].getD i 0) 4096 8192 ((3 : Nat) : Int) 2
        identityTransform 4 (.init 4096 8192)).map Prod.fst = some true ∧
    MappedWinFileTransformer.Process (transformerOf 2) idealEnv ⟨some [1, 2, 3], none⟩
        identityTransform 4
      = some ⟨false, some [1, 2, 3], [.transformSummary 1 2 "in" "out"],
          [⟨4096, 8192, 2⟩, ⟨4098, 8194, 1⟩], []⟩ :=
  ⟨rfl, rfl⟩

/-- C9 is violated: when `CreateFileMapping` fails on the output file, `Process` returns
`false` with the input view (mapped at 4096) still mapped; when instead `MapViewOfFile` fails
on the output file the input view is unmapped before the return. -/
theorem mapped_input_view_leaks :
    MappedWinFileTransformer.Process (transformerOf 2) outputMapFails ⟨some [1, 2, 3], none⟩
        identityTransform 4
      = some ⟨false, some [], [.cannotOpenFile "Output map"], [], [4096]⟩ ∧
    MappedWinFileTransformer.Process (transformerOf 2) { idealEnv with ptrOutFile := 0 }
        ⟨some [1, 2, 3], none⟩ identityTransform 4
      = some ⟨false, some [0, 0, 0], [.cannotMapOutput], [], []⟩ :=
  ⟨rfl, rfl⟩

/-! ## The same departures for every input -/

/-- Whatever the input, a returned `MappedWinFileTransformer::Process` returned `false`. -/
theorem mapped_Process_never_true (t : FileTransformer) (env : Env) (disk : Disk)
    (f : TProcessFunc) (fuel : Nat) (o : Outcome)
    (h : MappedWinFileTransformer.Process t env disk f fuel = some o) : o.result = false := by
  simp only [MappedWinFileTransformer.Process] at h
  repeat' split at h
  all_goals first
    | (cases h; rfl)
    | simp at h

/-- Whatever the input, a returned `MappedWinFileTransformer::Process` has unmapped every view
it mapped, except on the return that follows a failed `CreateFileMapping` on the output file,
which leaves the input view mapped. -/
theorem mapped_views_after_return (t : FileTransformer) (env : Env) (disk : Disk)
    (f : TProcessFunc) (fuel : Nat) (o : Outcome)
    (h : MappedWinFileTransformer.Process t env disk f fuel = some o) :
    o.views = [] ∨ (o.views = [env.ptrInFile] ∧ env.outputMapOK = false) := by
  simp only [MappedWinFileTransformer.Process] at h
  repeat' split at h
  all_goals first
    | (cases h; left; first | rfl | exact unmap_both _ _ | (simp [UnmapViewOfFile]; done))
    | (cases h; right; refine ⟨rfl, ?_⟩; rename_i hm; revert hm;
       simp only [createOutputMapping, make_HANDLE_unique_ptr];
       cases env.outputMapOK <;> simp)
    | simp at h

/-- For a source that does not exist the stdio, handle and mapped backends return `false`
before the destination is opened. -/
theorem missing_source_returns_early (t : FileTransformer) (env : Env) (disk : Disk)
    (f : TProcessFunc) (fuel : Nat) (h : disk.first = none) :
    StdioFileTransformer.Process t env disk f fuel = some (earlyReturn disk []) ∧
    WinFileTransformer.Process t env disk f fuel
      = some (earlyReturn disk [.cannotOpenFile t.m_strFirstFile]) ∧
    MappedWinFileTransformer.Process t env disk f fuel
      = some (earlyReturn disk [.cannotOpenFile t.m_strFirstFile]) := by
  simp [StdioFileTransformer.Process, WinFileTransformer.Process,
    MappedWinFileTransformer.Process, make_fopen, make_HANDLE_unique_ptr, openExisting, h]

/-- For a source that does not exist the stream backend truncates a writable destination,
reports no block and returns `true`. -/
theorem iostream_missing_source (t : FileTransformer) (env : Env) (disk : Disk)
    (f : TProcessFunc) (fuel : Nat) (h : disk.first = none)
    (hsw : env.secondWritable = true) :
    IoStreamFileTransformer.Process t env disk f (fuel + 1)
      = some ⟨true, some [], [summary t 0], [], []⟩ := by
  simp [IoStreamFileTransformer.Process, IoStreamFileTransformer.loop, openExisting, h,
    createAlways, hsw, LoopState.init]

end WinFileTests
